import Mathlib

/-!
# Verification of `ecadlabs/enclave-signer` (signer_core, nitro_signer_app)

Shallow embedding of the repository's keychain / multi-algorithm signer,
RPC server and client, and NSM entropy loops, with theorems settling the
frozen claims about the natural-language specification.

Conventions:
* bytes are `Nat` values (each `< 256` where it matters), byte strings are
  `List Nat`;
* code of the repository is translated faithfully from the Rust sources;
* external crates (`k256`/`p256`/`ecdsa`, `ed25519_dalek`, `blst`,
  `ciborium`/`serde`) are modelled at their API boundary: hash functions that
  the claims depend on (Blake2b-256) are implemented for real, while
  public-key primitives are modelled as ideal deterministic signature schemes
  (verification succeeds exactly on the signed bytes under the matching key).
-/

/-- Byte strings: lists of naturals (each byte `< 256` where relevant). -/
abbrev Bytes := List Nat

/-- Truncation to a 64-bit word. -/
def w64 (x : Nat) : Nat := x % (2 ^ 64)

/-- 64-bit wrapping addition. -/
def wadd (a b : Nat) : Nat := (a + b) % (2 ^ 64)

/-- 64-bit right rotation (inputs assumed `< 2^64`). -/
def rotr64 (x n : Nat) : Nat := w64 ((x >>> n) ||| (x <<< (64 - n)))

/-- Element read with default 0 (the state lists always have fixed length). -/
def lget (l : List Nat) (i : Nat) : Nat := l.getD i 0

/-- Blake2b initialization vector (RFC 7693). -/
def blakeIV : List Nat :=
  [0x6a09e667f3bcc908, 0xbb67ae8584caa73b, 0x3c6ef372fe94f82b, 0xa54ff53a5f1d36f1,
   0x510e527fade682d1, 0x9b05688c2b3e6c1f, 0x1f83d9abfb41bd6b, 0x5be0cd19137e2179]

/-- Blake2b message schedule (RFC 7693), row `r % 10`. -/
def sigmaRow (r : Nat) : List Nat :=
  match r % 10 with
  | 0 => [0, 1, 2, 3, 4, 5, 6, 7, 8, 9, 10, 11, 12, 13, 14, 15]
  | 1 => [14, 10, 4, 8, 9, 15, 13, 6, 1, 12, 0, 2, 11, 7, 5, 3]
  | 2 => [11, 8, 12, 0, 5, 2, 15, 13, 10, 14, 3, 6, 7, 1, 9, 4]
  | 3 => [7, 9, 3, 1, 13, 12, 11, 14, 2, 6, 5, 10, 4, 0, 15, 8]
  | 4 => [9, 0, 5, 7, 2, 4, 10, 15, 14, 1, 11, 12, 6, 8, 3, 13]
  | 5 => [2, 12, 6, 10, 0, 11, 8, 3, 4, 13, 7, 5, 15, 14, 1, 9]
  | 6 => [12, 5, 1, 15, 14, 13, 4, 10, 0, 7, 6, 3, 9, 2, 8, 11]
  | 7 => [13, 11, 7, 14, 12, 1, 3, 9, 5, 0, 15, 4, 8, 6, 2, 10]
  | 8 => [6, 15, 14, 9, 11, 3, 0, 8, 12, 2, 13, 7, 1, 4, 10, 5]
  | _ => [10, 2, 8, 4, 7, 6, 1, 5, 15, 11, 9, 14, 3, 12, 13, 0]

/-- Blake2b mixing function G (RFC 7693). -/
def gmix (v : List Nat) (a b c d x y : Nat) : List Nat :=
  let va := wadd (wadd (lget v a) (lget v b)) x
  let vd := rotr64 ((lget v d) ^^^ va) 32
  let vc := wadd (lget v c) vd
  let vb := rotr64 ((lget v b) ^^^ vc) 24
  let va2 := wadd (wadd va vb) y
  let vd2 := rotr64 (vd ^^^ va2) 16
  let vc2 := wadd vc vd2
  let vb2 := rotr64 (vb ^^^ vc2) 63
  (((v.set a va2).set b vb2).set c vc2).set d vd2

/-- One Blake2b round: columns then diagonals. -/
def blakeRound (m v : List Nat) (r : Nat) : List Nat :=
  let s := sigmaRow r
  let mi := fun i => lget m (lget s i)
  let v1 := gmix v 0 4 8 12 (mi 0) (mi 1)
  let v2 := gmix v1 1 5 9 13 (mi 2) (mi 3)
  let v3 := gmix v2 2 6 10 14 (mi 4) (mi 5)
  let v4 := gmix v3 3 7 11 15 (mi 6) (mi 7)
  let v5 := gmix v4 0 5 10 15 (mi 8) (mi 9)
  let v6 := gmix v5 1 6 11 12 (mi 10) (mi 11)
  let v7 := gmix v6 2 7 8 13 (mi 12) (mi 13)
  gmix v7 3 4 9 14 (mi 14) (mi 15)

/-- Blake2b compression function F (RFC 7693): 12 rounds. -/
def blakeCompress (h m : List Nat) (t : Nat) (last : Bool) : List Nat :=
  let v0 := h ++ blakeIV
  let v1 := v0.set 12 ((lget v0 12) ^^^ (t % (2 ^ 64)))
  let v2 := v1.set 13 ((lget v1 13) ^^^ (t / (2 ^ 64) % (2 ^ 64)))
  let v3 := if last then v2.set 14 ((lget v2 14) ^^^ (2 ^ 64 - 1)) else v2
  let v := (List.range 12).foldl (fun w r => blakeRound m w r) v3
  (List.range 8).map (fun i => (lget h i) ^^^ (lget v i) ^^^ (lget v (i + 8)))

/-- Little-endian byte list to natural number. -/
def leWord (bytes : List Nat) : Nat := bytes.foldr (fun b acc => acc * 256 + b % 256) 0

/-- A 128-byte block as 16 little-endian 64-bit words. -/
def blockWords (block : List Nat) : List Nat :=
  (List.range 16).map (fun i => leWord ((block.drop (8 * i)).take 8))

/-- Zero-pad a final block to 128 bytes. -/
def padBlock (b : List Nat) : List Nat := b ++ List.replicate (128 - b.length) 0

/-- Blake2b block loop: full blocks with a running counter, the last (possibly
empty) block zero-padded and compressed with the final flag. Structural
recursion on a fuel argument (callers pass enough fuel: one unit per full
128-byte block) so the kernel can evaluate digests of concrete messages. -/
def blake2bLoop : Nat → List Nat → Bytes → Nat → List Nat
  | 0, h, rest, t => blakeCompress h (blockWords (padBlock rest)) (t + rest.length) true
  | fuel + 1, h, rest, t =>
    if rest.length ≤ 128 then
      blakeCompress h (blockWords (padBlock rest)) (t + rest.length) true
    else
      blake2bLoop fuel (blakeCompress h (blockWords (rest.take 128)) (t + 128) false)
        (rest.drop 128) (t + 128)

/-- A 64-bit word as 8 little-endian bytes. -/
def wordLEBytes (w : Nat) : List Nat := (List.range 8).map (fun i => w / 256 ^ i % 256)

/-- Blake2b-256 (RFC 7693, unkeyed, 32-byte digest): the `Blake2b256` hasher
of the `blake2` crate used by `src/signer_core/src/crypto/ecdsa.rs` and the
tests in `src/signer_core/src/lib.rs`. -/
def blake2b256 (m : Bytes) : Bytes :=
  let h0 := blakeIV.set 0 ((lget blakeIV 0) ^^^ 0x01010020)
  let h := blake2bLoop (m.length / 128) h0 m 0
  ((List.range 4).map (fun i => wordLEBytes (lget h i))).flatten

/-! ## Ideal models of the external signature crates

The RustCrypto `ecdsa` crate (over `k256`/`p256`), `ed25519_dalek` and
`blst` are external dependencies. They are modelled as ideal deterministic
signature schemes: a signature value records the signing key and the exact
bytes that were signed, and verification succeeds precisely when the public
key matches the signing key and the bytes match (ideal unforgeability;
hash/point collisions are not modelled). What the repository controls — and
what the claims are about — is which bytes each code path feeds to these
primitives. -/

/-- The two ECDSA curves of the crate (`k256::Secp256k1`, `p256::NistP256`). -/
inductive Curve
  | secp256k1
  | nistP256
deriving DecidableEq, Repr

/-- Model of `ecdsa::SigningKey<C>`: an abstract secret scalar on a curve. -/
structure ECDSAKey where
  curve : Curve
  scalar : Nat
deriving DecidableEq, Repr

/-- Model of `ecdsa::VerifyingKey<C>`: the public point, determined by the
secret scalar (scalar multiplication is injective below the group order). -/
structure ECDSAPub where
  curve : Curve
  scalar : Nat
deriving DecidableEq, Repr

/-- `SigningKey::verifying_key`. -/
def ECDSAKey.verifyingKey (k : ECDSAKey) : ECDSAPub := ⟨k.curve, k.scalar⟩

/-- Model of `ecdsa::Signature<C>`: RFC 6979 deterministic ECDSA signature
over a digest, recorded with the key that produced it. -/
structure ECDSASig where
  curve : Curve
  scalar : Nat
  digest : Bytes
deriving DecidableEq, Repr

/-- Model of `try_sign_digest` (RustCrypto hazmat digest signing): the
signature commits to the finalized digest bytes. -/
def ecdsaSignDigest (k : ECDSAKey) (d : Bytes) : ECDSASig := ⟨k.curve, k.scalar, d⟩

/-- Model of `verify_digest`: succeeds exactly on the digest that was signed,
under the matching public key (ideal EUF-CMA security). -/
def ecdsaVerifyDigest (p : ECDSAPub) (d : Bytes) (s : ECDSASig) : Bool :=
  s.curve == p.curve && s.scalar == p.scalar && s.digest == d

/-- Model of `ed25519_dalek::SigningKey`. -/
structure EdKey where
  scalar : Nat
deriving DecidableEq, Repr

/-- Model of `ed25519_dalek::VerifyingKey`. -/
structure EdPub where
  scalar : Nat
deriving DecidableEq, Repr

/-- `SigningKey::verifying_key`. -/
def EdKey.verifyingKey (k : EdKey) : EdPub := ⟨k.scalar⟩

/-- Model of `ed25519::Signature`: pure Ed25519 is deterministic in the key
and the exact message bytes handed to `sign`. -/
structure EdSig where
  scalar : Nat
  msg : Bytes
deriving DecidableEq, Repr

/-- Pure Ed25519 signing of the given message bytes (`Signer::try_sign` of
`ed25519_dalek`, which never pre-hashes). -/
def edSign (k : EdKey) (m : Bytes) : EdSig := ⟨k.scalar, m⟩

/-- Pure Ed25519 verification: succeeds exactly on the signed message bytes
under the matching public key. -/
def edVerify (p : EdPub) (m : Bytes) (s : EdSig) : Bool :=
  s.scalar == p.scalar && s.msg == m

/-- Model of `blst::min_pk::SecretKey`. -/
structure BLSKey where
  scalar : Nat
deriving DecidableEq, Repr

/-- Model of `blst::min_pk::PublicKey` (a G1 point, determined by the
secret scalar). -/
structure BLSPub where
  scalar : Nat
deriving DecidableEq, Repr

/-- `SecretKey::sk_to_pk`. -/
def BLSKey.skToPk (k : BLSKey) : BLSPub := ⟨k.scalar⟩

/-- A natural number as `n` little-endian bytes (its residue mod `256^n`). -/
def natToBytesLE (n x : Nat) : Bytes := (List.range n).map (fun i => x / 256 ^ i % 256)

/-- Model of `min_pk::PublicKey::compress` / `to_bytes`: the 48-byte G1
compressed encoding, injective on real scalars (all `< 2^255`). -/
def blsPkCompress (p : BLSPub) : Bytes := natToBytesLE 48 (p.scalar % 2 ^ 384)

/-- Model of `blst::min_pk::Signature`: the augmented-scheme signature is the
G2 point `sk · H(aug ‖ msg)` under the domain-separation tag, so the value is
determined by — and in the ideal model records — the key, message, DST and
augmentation bytes. -/
structure BLSSig where
  scalar : Nat
  msg : Bytes
  dst : Bytes
  aug : Bytes
deriving DecidableEq, Repr

/-- `SecretKey::sign(msg, dst, aug)` of `blst`. -/
def blsSign (k : BLSKey) (m dst aug : Bytes) : BLSSig := ⟨k.scalar, m, dst, aug⟩

/-- Model of `min_pk::Signature::compress`: in the min-pk scheme the
signature is a G2 point, whose compressed encoding — the return type of
`compress()` — is `[u8; 96]`. Only the output length and value-determinism
are used by the theorems; the point structure itself is abstracted through
a component pairing reduced to 96 bytes. -/
def blsSigCompress (s : BLSSig) : Bytes :=
  natToBytesLE 96
    (Nat.pair s.scalar
      (Nat.pair (leWord s.msg + s.msg.length)
        (Nat.pair (leWord s.dst + s.dst.length) (leWord s.aug + s.aug.length))) % 2 ^ 768)

/-- Model of `min_pk::Signature::uncompress`: a G2 point can only be
decoded from its 96-byte compressed encoding; `blst` answers
`BLST_BAD_ENCODING` for every other input length. (Point-validity checks
on well-sized inputs are abstracted: the model accepts any 96-byte
string.) -/
def blsSigUncompress (b : Bytes) : Option BLSSig :=
  if b.length = 96 then some ⟨leWord b, [], [], []⟩ else none

/-! ## The ECDSA type layer: `src/signer_core/src/crypto/ecdsa.rs` -/

/-- From `src/signer_core/src/crypto/ecdsa.rs` (lines 138-166), the
`KeyPair` impls for `SigningKey<ecdsa::SigningKey<Secp256k1>>` and
`SigningKey<ecdsa::SigningKey<NistP256>>`: both build a `Blake2b256` digest
of the raw message and sign it with `try_sign_digest`. The two Rust impls
have identical bodies; here the curve is carried by the key. -/
def cryptoEcdsaTrySign (k : ECDSAKey) (msg : Bytes) : ECDSASig :=
  ecdsaSignDigest k (blake2b256 msg)

/-- From the same impls: `public_key` returns the wrapped verifying key. -/
def cryptoEcdsaPublicKey (k : ECDSAKey) : ECDSAPub := k.verifyingKey

/-! ## The core signer: `KeyType`, key sums, the keychain dispatch

`src/signer_core/src/lib.rs` wires `crypto::{KeyPair, KeyType, Keychain,
PrivateKey, PublicKey, Signature}`. The module root `crypto/mod.rs` is not
under `src/` (only `crypto/ecdsa.rs` is); its enums and the per-variant
dispatch are reconstructed below from the spec (§3, §4.4) and from their
in-crate callers and tests (`lib.rs`, `rpc/server.rs`, `rpc/client.rs`).
The sibling module `src/signer_core/src/signer.rs` defines the same shapes
(`KeyType` lines 11-17, `PrivateKey` lines 190-196, `Keychain` lines
283-317) and is used as the structural reference where it agrees with the
wired layer. -/

/-- `KeyType` (spec §3; `signer.rs` lines 11-17). -/
inductive KeyType
  | secp256k1
  | nistP256
  | ed25519
  | bls
deriving DecidableEq, Repr

/-- `PrivateKey`: one variant per algorithm, each wrapping the concrete
signing key (`signer.rs` lines 190-196; spec §3). -/
inductive PrivateKey
  | secp256k1 (scalar : Nat)
  | nistP256 (scalar : Nat)
  | ed25519 (scalar : Nat)
  | bls (scalar : Nat)
deriving DecidableEq, Repr

/-- `PublicKey`: the mirrored public-key sum (`signer.rs` lines 237-243). -/
inductive PublicKey
  | secp256k1 (p : ECDSAPub)
  | nistP256 (p : ECDSAPub)
  | ed25519 (p : EdPub)
  | bls (p : BLSPub)
deriving DecidableEq, Repr

/-- `Signature`: the mirrored signature sum (`signer.rs` lines 19-25). -/
inductive Signature
  | secp256k1 (s : ECDSASig)
  | nistP256 (s : ECDSASig)
  | ed25519 (s : EdSig)
  | bls (s : BLSSig)
deriving DecidableEq, Repr

/-- The BLS domain-separation tag of the augmented min-pk scheme:
`b"BLS_SIG_BLS12381G2_XMD:SHA-256_SSWU_RO_AUG_"`
(`src/signer_core/src/signer.rs` line 184). -/
def blsDST : Bytes :=
  "BLS_SIG_BLS12381G2_XMD:SHA-256_SSWU_RO_AUG_".toList.map Char.toNat

/-- From `src/signer_core/src/signer.rs` lines 179-188 (`KeyPair for
min_pk::SecretKey`): sign with the augmented DST and the signer's own
compressed public key as augmentation bytes. -/
def minPkTrySign (k : BLSKey) (msg : Bytes) : BLSSig :=
  blsSign k msg blsDST (blsPkCompress k.skToPk)

/-- Modelled from the spec: the per-variant `public_key` dispatch of the
wired `crypto` layer (`crypto/mod.rs` is absent from `src/`). Spec §4.4:
ECDSA public keys are the curve verifying keys, Ed25519 the dalek verifying
key, BLS the min-pk public key — identical to `signer.rs` lines 152-188,
217-235. -/
def PrivateKey.publicKey : PrivateKey → PublicKey
  | .secp256k1 s => .secp256k1 (cryptoEcdsaPublicKey ⟨Curve.secp256k1, s⟩)
  | .nistP256 s => .nistP256 (cryptoEcdsaPublicKey ⟨Curve.nistP256, s⟩)
  | .ed25519 s => .ed25519 (EdKey.verifyingKey ⟨s⟩)
  | .bls s => .bls (BLSKey.skToPk ⟨s⟩)

/-- Modelled from the spec: the per-variant `try_sign` dispatch of the wired
`crypto` layer (`crypto/mod.rs` is absent from `src/`; the in-src evidence
is embedded per arm):
* ECDSA arms: `src/signer_core/src/crypto/ecdsa.rs` lines 138-166 (in src),
  Blake2b-256 digest signing, confirmed by the `signer_secp256k1` and
  `signer_nist_p256` tests in `lib.rs`;
* Ed25519 arm: the in-crate test `signer_ed25519` (`lib.rs` lines 437-455)
  verifies the produced signature against `Blake2b256::digest(data)` with
  pure Ed25519, which pins this arm to signing the Blake2b-256 digest bytes
  (the spec's words "signs the message directly" contradict that test and
  are settled under claim C2);
* BLS arm: augmented min-pk signing exactly as `signer.rs` lines 179-188. -/
def PrivateKey.trySign : PrivateKey → Bytes → Signature
  | .secp256k1 s, msg => .secp256k1 (cryptoEcdsaTrySign ⟨Curve.secp256k1, s⟩ msg)
  | .nistP256 s, msg => .nistP256 (cryptoEcdsaTrySign ⟨Curve.nistP256, s⟩ msg)
  | .ed25519 s, msg => .ed25519 (edSign ⟨s⟩ (blake2b256 msg))
  | .bls s, msg => .bls (minPkTrySign ⟨s⟩ msg)

/-- The signer-layer error (`signer.rs` lines 245-250, `crypto::Error`):
`InvalidHandle`, signature errors, BLS errors. -/
inductive SignerErr
  | invalidHandle
  | signature
  | bls
deriving DecidableEq, Repr

/-- The keychain: an ordered sequence of imported keys addressed by dense
0-based handles (`src/signer_core/src/signer.rs` lines 283-317; the wired
`crypto::Keychain` is modelled from spec §3/§4.4 with the same structure).
The Rust `Vec<Box<dyn KeyPair>>` of trait objects built from the
`PrivateKey` variants is represented by the `PrivateKey` sum itself, with
`PrivateKey.trySign` / `PrivateKey.publicKey` as the dynamic dispatch. -/
structure Keychain where
  keys : List PrivateKey
deriving DecidableEq, Repr

/-- `Keychain::new` (lines 289-291). -/
def Keychain.new : Keychain := ⟨[]⟩

/-- `Keychain::import` (lines 293-302): push the key, return
`self.keys.len() - 1`, i.e. the 0-based index of the appended key. -/
def Keychain.importKey (kc : Keychain) (src : PrivateKey) : Keychain × Nat :=
  (⟨kc.keys ++ [src]⟩, kc.keys.length)

/-- `Keychain::try_sign` (lines 304-309): dispatch on `keys.get(handle)`,
`InvalidHandle` when absent. Takes `&self` in Rust: no state change. -/
def Keychain.trySign (kc : Keychain) (handle : Nat) (msg : Bytes) :
    Except SignerErr Signature :=
  match kc.keys.get? handle with
  | some k => .ok (k.trySign msg)
  | none => .error .invalidHandle

/-- `Keychain::public_key` (lines 311-316). -/
def Keychain.publicKey (kc : Keychain) (handle : Nat) : Except SignerErr PublicKey :=
  match kc.keys.get? handle with
  | some k => .ok k.publicKey
  | none => .error .invalidHandle

/-- `PrivateKey::generate` (`signer.rs` lines 198-215): draw a fresh key of
the requested type from the CSPRNG. The external RNG and the per-algorithm
key derivation (curve scalar rejection sampling, dalek seed expansion, BLS
HKDF `key_gen` over 32 bytes of IKM with empty salt) are abstracted into a
deterministic draw from the RNG state, which the call advances. -/
def PrivateKey.generate (t : KeyType) (rng : Nat) : PrivateKey × Nat :=
  match t with
  | .secp256k1 => (.secp256k1 rng, rng + 1)
  | .nistP256 => (.nistP256 rng, rng + 1)
  | .ed25519 => (.ed25519 rng, rng + 1)
  | .bls => (.bls rng, rng + 1)

/-! ## Key serialization and the encryption backend (`src/signer_core/src/lib.rs`) -/

/-- Model of the CBOR (`ciborium` + serde) encoding of a `PrivateKey`: a
variant tag followed by the 32-byte scalar encoding (spec §4.4: raw field
bytes for ECDSA, the 32-byte seed for Ed25519, the raw 32-byte scalar for
BLS). Injective on real key material (scalars `< 2^256`). -/
def privateKeyToCbor : PrivateKey → Bytes
  | .secp256k1 s => 0 :: natToBytesLE 32 (s % 2 ^ 256)
  | .nistP256 s => 1 :: natToBytesLE 32 (s % 2 ^ 256)
  | .ed25519 s => 2 :: natToBytesLE 32 (s % 2 ^ 256)
  | .bls s => 3 :: natToBytesLE 32 (s % 2 ^ 256)

/-- Model of the CBOR decoding of a `PrivateKey` (inverse of
`privateKeyToCbor`; `none` models a `ciborium::de::Error`). -/
def privateKeyFromCbor (b : Bytes) : Option PrivateKey :=
  match b with
  | t :: rest =>
    if rest.length = 32 then
      match t with
      | 0 => some (.secp256k1 (leWord rest))
      | 1 => some (.nistP256 (leWord rest))
      | 2 => some (.ed25519 (leWord rest))
      | 3 => some (.bls (leWord rest))
      | _ => none
    else none
  | [] => none

/-- The `SyncEncryptionBackend` / `AsyncEncryptionBackend` contract
(`lib.rs` lines 57-69): wrap/unwrap bytes, with a backend-specific error
type `ε`. The async variant differs from the sync one only in suspension,
which the embedding erases. -/
structure Backend (ε : Type) where
  encrypt : Bytes → Except ε Bytes
  decrypt : Bytes → Except ε Bytes

/-- `Error<S>` of `lib.rs` (lines 71-77): encryption, signer, serialize and
deserialize error classes. -/
inductive LibError (ε : Type)
  | encryption (e : ε)
  | signer (e : SignerErr)
  | serializeFailed
  | deserializeFailed

/-- `EncryptedSignerInner` / `EncryptedSigner` / `AsyncEncryptedSigner`
(`lib.rs` lines 119-314): a keychain plus an encryption backend. The sync
(lines 143-215) and async (lines 228-304) impls have identical logic (the
async one only awaits the backend futures); both are embedded by the
definitions below. -/
structure EncryptedSigner (ε : Type) where
  keychain : Keychain
  enc : Backend ε

/-- `EncryptedSigner::new` (lines 124-131, 144-146). -/
def EncryptedSigner.new (enc : Backend ε) : EncryptedSigner ε := ⟨Keychain.new, enc⟩

/-- `EncryptedSigner::decrypt` (lines 156-161): backend decrypt, then CBOR
decode of the plaintext private key. -/
def EncryptedSigner.decrypt (s : EncryptedSigner ε) (src : Bytes) :
    Except (LibError ε) PrivateKey :=
  match s.enc.decrypt src with
  | .ok decrypted =>
    match privateKeyFromCbor decrypted with
    | some pk => .ok pk
    | none => .error .deserializeFailed
  | .error e => .error (.encryption e)

/-- `EncryptedSigner::encrypt` (lines 163-169): CBOR-encode the private key
(total in the model: serialization to a growable buffer cannot fail), then
backend encrypt. -/
def EncryptedSigner.encrypt (s : EncryptedSigner ε) (pk : PrivateKey) :
    Except (LibError ε) Bytes :=
  match s.enc.encrypt (privateKeyToCbor pk) with
  | .ok value => .ok value
  | .error e => .error (.encryption e)

/-- `EncryptedSigner::try_sign` (lines 132-134, 148-150): keychain dispatch;
takes `&self`, so no state change. -/
def EncryptedSigner.trySign (s : EncryptedSigner ε) (handle : Nat) (msg : Bytes) :
    Except (LibError ε) Signature :=
  (s.keychain.trySign handle msg).mapError .signer

/-- `EncryptedSigner::public_key` (lines 136-138, 152-154). -/
def EncryptedSigner.publicKey (s : EncryptedSigner ε) (handle : Nat) :
    Except (LibError ε) PublicKey :=
  (s.keychain.publicKey handle).mapError .signer

/-- `EncryptedSigner::import` (lines 171-175): decrypt the ciphertext, then
append the key to the keychain; on failure the signer is untouched. Returns
the result together with the signer state after the call. -/
def EncryptedSigner.importEnc (s : EncryptedSigner ε) (keyData : Bytes) :
    Except (LibError ε) (PublicKey × Nat) × EncryptedSigner ε :=
  match s.decrypt keyData with
  | .ok pk =>
    let p := pk.publicKey
    let (kc, h) := s.keychain.importKey pk
    (.ok (p, h), { s with keychain := kc })
  | .error e => (.error e, s)

/-- `EncryptedSigner::import_unencrypted` (lines 177-184): encrypt the given
key, then append it to the keychain. -/
def EncryptedSigner.importUnencrypted (s : EncryptedSigner ε) (pk : PrivateKey) :
    Except (LibError ε) (Bytes × PublicKey × Nat) × EncryptedSigner ε :=
  let p := pk.publicKey
  match s.encrypt pk with
  | .ok encrypted =>
    let (kc, h) := s.keychain.importKey pk
    (.ok (encrypted, p, h), { s with keychain := kc })
  | .error e => (.error e, s)

/-- `EncryptedSigner::generate` (lines 186-195, async lines 271-280):
generate a fresh key, encrypt it, and return `(ciphertext, PublicKey)`.
Takes `&self` in Rust — the keychain cannot change; only the RNG state
advances, which the embedding returns alongside the result. -/
def EncryptedSigner.generate (s : EncryptedSigner ε) (t : KeyType) (rng : Nat) :
    Except (LibError ε) (Bytes × PublicKey) × Nat :=
  let (pk, rng') := PrivateKey.generate t rng
  let p := pk.publicKey
  match s.encrypt pk with
  | .ok encrypted => (.ok (encrypted, p), rng')
  | .error e => (.error e, rng')

/-- `EncryptedSigner::generate_and_import` (lines 197-206): generate,
encrypt, and additionally append to the keychain. -/
def EncryptedSigner.generateAndImport (s : EncryptedSigner ε) (t : KeyType) (rng : Nat) :
    Except (LibError ε) (Bytes × PublicKey × Nat) × EncryptedSigner ε × Nat :=
  let (pk, rng') := PrivateKey.generate t rng
  let p := pk.publicKey
  match s.encrypt pk with
  | .ok encrypted =>
    let (kc, h) := s.keychain.importKey pk
    (.ok (encrypted, p, h), { s with keychain := kc }, rng')
  | .error e => (.error e, s, rng')

/-- `EncryptedSigner::try_sign_with` (lines 208-210): decrypt, sign, discard
the plaintext key. -/
def EncryptedSigner.trySignWith (s : EncryptedSigner ε) (keyData msg : Bytes) :
    Except (LibError ε) Signature :=
  (s.decrypt keyData).map (fun pk => pk.trySign msg)

/-- `EncryptedSigner::public_key_from` (lines 212-214). -/
def EncryptedSigner.publicKeyFrom (s : EncryptedSigner ε) (keyData : Bytes) :
    Except (LibError ε) PublicKey :=
  (s.decrypt keyData).map PrivateKey.publicKey

/-! ## The RPC server (`src/signer_core/src/rpc/server.rs`)

The module root `rpc/mod.rs` (declaring `Request`, the RPC `Error` and the
RPC `Result` alias) is not under `src/`; its shapes are fully pinned by the
exhaustive matches of `server.rs`/`client.rs` and by spec §4.7/§7 and are
reconstructed here. -/

/-- The request vocabulary (spec §4.7; matched exhaustively by
`server.rs` lines 135-203 and constructed by `client.rs`), parametric in
the backend credentials type `γ`. -/
inductive Request (γ : Type)
  | Initialize (cred : γ)
  | importKey (keyData : Bytes)
  | importUnencrypted (key : PrivateKey)
  | generate (t : KeyType)
  | generateAndImport (t : KeyType)
  | sign (handle : Nat) (msg : Bytes)
  | signWith (keyData : Bytes) (msg : Bytes)
  | publicKey (handle : Nat)
  | publicKeyFrom (keyData : Bytes)

/-- Whether a request is `Initialize` (the pattern split of the dispatch). -/
def Request.isInit : Request γ → Bool
  | .Initialize _ => true
  | _ => false

/-- The RPC error kinds carried in the `Err` arm of a response (spec §7;
`StateError` of `server.rs` lines 12-16 plus the conversions from
`lib::Error` used at every dispatch arm). -/
inductive RPCError (ε : Type)
  | uninitialized
  | alreadyInitialized
  | deserialize
  | serializeFailed
  | signer (e : SignerErr)
  | encryption (e : ε)

/-- `impl From<Error<S>> for rpc::Error` (used as `RPCError::from` at every
dispatch arm): map the signer-library error classes onto the wire kinds. -/
def RPCError.ofLib : LibError ε → RPCError ε
  | .encryption e => .encryption e
  | .signer e => .signer e
  | .serializeFailed => .serializeFailed
  | .deserializeFailed => .deserialize

/-- The operation-specific `Ok` payloads of the response sum (spec §4.7). -/
inductive RespVal
  | unit
  | pubHandle (p : PublicKey) (h : Nat)
  | ctPub (ct : Bytes) (p : PublicKey)
  | ctPubHandle (ct : Bytes) (p : PublicKey) (h : Nat)
  | sig (s : Signature)
  | pub (p : PublicKey)

/-- `rpc::Result<T>` as written to the wire: `Ok` payload or error kind. -/
inductive Response (ε : Type)
  | ok (v : RespVal)
  | err (e : RPCError ε)

/-- Lift a signer-library result into a wire response. -/
def Response.ofResult : Except (LibError ε) RespVal → Response ε
  | .ok v => .ok v
  | .error e => .err (RPCError.ofLib e)

/-- The per-connection server (`server.rs` lines 66-81): a backend factory,
an optional signer (`None` = `Uninitialized`), and the RNG. The factory
(`EncryptionBackendFactory::try_new`, `lib.rs` lines 47-55) and the
`ciborium` request decoding and response encoding are carried as function
fields, mirroring the Rust type parameters and serde bounds. -/
structure ServerM (γ ε : Type) where
  tryNew : γ → Except ε (Backend ε)
  decodeRequest : Bytes → Option (Request γ)
  encodeResponse : Response ε → Bytes
  signer : Option (EncryptedSigner ε)
  rng : Nat

/-- The dispatch of `Server::handle_message` after request decoding
(`server.rs` lines 135-203, and identically — the async variant only awaits
the backend futures — lines 269-343): match on `(request, signer)` in
source order. Returns the server state after the call and the response. -/
def ServerM.handleRequest (st : ServerM γ ε) (req : Request γ) :
    ServerM γ ε × Response ε :=
  match req, st.signer with
  | .Initialize cred, none =>
    match st.tryNew cred with
    | .ok enc => ({ st with signer := some (EncryptedSigner.new enc) }, .ok .unit)
    | .error e => (st, .err (.encryption e))
  | .Initialize _, some _ => (st, .err .alreadyInitialized)
  | _, none => (st, .err .uninitialized)
  | .importKey keyData, some sg =>
    let (res, sg') := sg.importEnc keyData
    ({ st with signer := some sg' },
      Response.ofResult (res.map fun (p, h) => .pubHandle p h))
  | .importUnencrypted key, some sg =>
    let (res, sg') := sg.importUnencrypted key
    ({ st with signer := some sg' },
      Response.ofResult (res.map fun (ct, p, h) => .ctPubHandle ct p h))
  | .generate t, some sg =>
    let (res, rng') := sg.generate t st.rng
    ({ st with rng := rng' },
      Response.ofResult (res.map fun (ct, p) => .ctPub ct p))
  | .generateAndImport t, some sg =>
    let (res, sg', rng') := sg.generateAndImport t st.rng
    ({ st with signer := some sg', rng := rng' },
      Response.ofResult (res.map fun (ct, p, h) => .ctPubHandle ct p h))
  | .sign handle msg, some sg =>
    (st, Response.ofResult ((sg.trySign handle msg).map .sig))
  | .signWith keyData msg, some sg =>
    (st, Response.ofResult ((sg.trySignWith keyData msg).map .sig))
  | .publicKey handle, some sg =>
    (st, Response.ofResult ((sg.publicKey handle).map .pub))
  | .publicKeyFrom keyData, some sg =>
    (st, Response.ofResult ((sg.publicKeyFrom keyData).map .pub))

/-- `Server::handle_message` (`server.rs` lines 119-133 sync, 253-267
async): decode the frame payload as a CBOR `Request`; on failure, echo a
deserialization error to the client and report success (so the connection
loop continues); otherwise dispatch. -/
def ServerM.handleMessage (st : ServerM γ ε) (buf : Bytes) :
    ServerM γ ε × Response ε :=
  match st.decodeRequest buf with
  | some req => st.handleRequest req
  | none => (st, .err .deserialize)

/-- How `serve_connection` ends: `Ok(())` on a clean close (EOF at the
4-byte length read), or the propagated IO error on EOF mid-payload. -/
inductive ServeExit
  | clean
  | ioError
deriving DecidableEq, Repr

/-- `u32::from_be_bytes` on a 4-byte list. -/
def beBytesToNat (b : Bytes) : Nat := b.foldl (fun acc x => acc * 256 + x % 256) 0

/-- A `u32` as 4 big-endian bytes (`to_be_bytes`). -/
def natToBeBytes4 (n : Nat) : Bytes :=
  [n / 2 ^ 24 % 256, n / 2 ^ 16 % 256, n / 2 ^ 8 % 256, n % 256]

/-- The framing loop of `Server::serve_connection` (`server.rs` lines
92-117 sync, 217-251 async; identical logic): read exactly 4 length bytes
(EOF there — fewer than 4 bytes left on the stream — breaks the loop with
`Ok(())`), read exactly `len` payload bytes (EOF there propagates an IO
error), handle the message, write back the length-prefixed response, loop.
The connection is a finite byte stream; the outputs are the response frames
in order. Structural recursion on fuel (each iteration consumes at least 4
bytes, so `input.length` units suffice; see `serveLoop_congr`). -/
def serveLoop : Nat → ServerM γ ε → Bytes → ServeExit × List Bytes
  | fuel, st, input =>
    if input.length < 4 then (.clean, [])
    else
      match fuel with
      | 0 => (.clean, [])
      | fuel + 1 =>
        let len := beBytesToNat (input.take 4)
        let rest := input.drop 4
        if rest.length < len then (.ioError, [])
        else
          let payload := rest.take len
          let (st', resp) := st.handleMessage payload
          let rbytes := st'.encodeResponse resp
          let frame := natToBeBytes4 rbytes.length ++ rbytes
          let (ex, outs) := serveLoop fuel st' (rest.drop len)
          (ex, frame :: outs)

/-- `Server::serve_connection` on a finite connection byte stream. -/
def ServerM.serveConnection (st : ServerM γ ε) (input : Bytes) : ServeExit × List Bytes :=
  serveLoop input.length st input

/-! ## BLS signature wire form (`src/signer_core/src/signer.rs` lines 37-59) -/

/-- `impl Serialize for BLSSignature`: the wire content is
`serdect::array::serialize_hex_upper_or_bin(&self.0.compress(), _)`, which
for the binary (CBOR) serializer emits the compressed array — 96 bytes, the
G2 compressed size — as a byte string. -/
def blsSignatureSerialize (s : BLSSig) : Bytes := blsSigCompress s

/-- `impl Deserialize for BLSSignature` (`signer.rs` lines 47-58): fill a
`[u8; 48]` (any input whose byte string is not exactly 48 bytes is rejected
by `serdect::array::deserialize_hex_or_bin`), then hand those 48 bytes to
`min_pk::Signature::uncompress` — which expects the 96-byte G2 compressed
encoding and therefore fails on every 48-byte input, so this deserializer
never succeeds. -/
def blsSignatureDeserialize (b : Bytes) : Option BLSSig :=
  if b.length = 48 then blsSigUncompress b else none

/-! ## The RPC client (`src/signer_core/src/rpc/client.rs`) -/

/-- The outcome of the client's response-decoding step. -/
inductive SliceOutcome (ρ : Type)
  | panicked
  | deserializeFailed
  | ok (r : ρ)

/-- The sync `Client` (`client.rs` lines 53-68): a socket plus the serde
instances for the credentials type, carried as function fields
(`encodeRequest` models `Request::try_into_cbor`, `decodeResult` models
`RPCResult::try_from_cbor`). -/
structure ClientM (γ ρ : Type) where
  encodeRequest : Request γ → Bytes
  decodeResult : Bytes → Option ρ

/-- `Client::round_trip` (`client.rs` lines 70-85), embedded exactly as
written:
* `let buf = q.try_into_cbor()?` then `self.socket.write(&buf)` — the bytes
  written to the socket are the CBOR request encoding itself, with no
  4-byte length prefix (first component of the result);
* `let sz = self.socket.read(&mut r_buf)?` — a single read into the 64 KiB
  receive buffer returns `sz = min(response.length, 65536)` bytes of the
  server's response;
* `RPCResult::try_from_cbor(&buf[0..sz])` — the decode input is the first
  `sz` bytes of the REQUEST buffer `buf`, not of `r_buf`; when
  `sz > buf.len()` the Rust slice expression panics (modelled as
  `.panicked`). -/
def ClientM.roundTrip (c : ClientM γ ρ) (q : Request γ) (response : Bytes) :
    Bytes × SliceOutcome ρ :=
  let buf := c.encodeRequest q
  let sz := min response.length (64 * 1024)
  (buf,
    if sz ≤ buf.length then
      match c.decodeResult (buf.take sz) with
      | some r => .ok r
      | none => .deserializeFailed
    else .panicked)

/-! ## The NSM random loops (`src/nitro_signer_app/src/nsm.rs`) -/

/-- `aws_nitro_enclaves_nsm_api::api::ErrorCode`, as far as the claims need
it. -/
inductive ErrorCode
  | internalError
  | other (n : Nat)
deriving DecidableEq, Repr

/-- `nsm::Error` (`nsm.rs` lines 65-71). -/
inductive NsmError
  | io
  | nsm (c : ErrorCode)
  | spki
  | responseType
deriving DecidableEq, Repr

/-- `SharedNSM::try_fill_bytes` (`nsm.rs` lines 140-151): while the
destination is non-empty, call `NSM::get_random_vec` and copy
`min(v.len(), dest.len())` bytes into the destination. The driver is the
external NSM device, modelled as a call-indexed response stream
`driver : Nat → Except NsmError Bytes`. The Rust loop has no bound;
termination is observed through a fuel parameter: `none` means the loop has
not finished within `fuel` iterations, so `(∀ fuel, ... = none)` states
non-termination. The filled destination is returned as the concatenation of
the consumed chunk prefixes. -/
def tryFillBytes (driver : Nat → Except NsmError Bytes) :
    Nat → Nat → Nat → Bytes → Option (Except NsmError Bytes)
  | _, _, 0, acc => some (.ok acc)
  | 0, _, _ + 1, _ => none
  | fuel + 1, i, dl + 1, acc =>
    match driver i with
    | .error e => some (.error e)
    | .ok v =>
      let sz := min v.length (dl + 1)
      tryFillBytes driver fuel (i + 1) (dl + 1 - sz) (acc ++ v.take sz)

/-- `seed_rng` (`nsm.rs` lines 196-210): while `bytes != 0`, pull a chunk;
an EMPTY chunk is rejected with `Error::NSM(ErrorCode::InternalError)`;
otherwise push `min(chunk.len(), bytes)` bytes into the kernel entropy pool
(the `RNDADDENTROPY` ioctl and the `/dev/random` open are external and
modelled as succeeding) and decrement. Fuel as in `tryFillBytes`. -/
def seedRng (driver : Nat → Except NsmError Bytes) :
    Nat → Nat → Nat → Option (Except NsmError Unit)
  | _, _, 0 => some (.ok ())
  | 0, _, _ + 1 => none
  | fuel + 1, i, b + 1 =>
    match driver i with
    | .error e => some (.error e)
    | .ok chunk =>
      if chunk.length = 0 then some (.error (.nsm .internalError))
      else seedRng driver fuel (i + 1) (b + 1 - min chunk.length (b + 1))


/-! ## Helper lemmas -/

/-- Unfolding equation for `serveLoop`. -/
theorem serveLoop_unfold (fuel : Nat) (st : ServerM γ ε) (input : Bytes) :
    serveLoop fuel st input = if input.length < 4 then (.clean, []) else
      match fuel with
      | 0 => (.clean, [])
      | fuel + 1 =>
        let len := beBytesToNat (input.take 4)
        let rest := input.drop 4
        if rest.length < len then (.ioError, [])
        else
          let payload := rest.take len
          let (st', resp) := st.handleMessage payload
          let rbytes := st'.encodeResponse resp
          let frame := natToBeBytes4 rbytes.length ++ rbytes
          let (ex, outs) := serveLoop fuel st' (rest.drop len)
          (ex, frame :: outs) := by
  cases fuel <;> rfl

/-- `serveLoop` does not depend on the fuel once the fuel covers the input
length: every loop iteration consumes at least 4 bytes of input. -/
theorem serveLoop_congr :
    ∀ (f₁ f₂ : Nat) (st : ServerM γ ε) (input : Bytes),
      input.length ≤ f₁ → input.length ≤ f₂ →
      serveLoop f₁ st input = serveLoop f₂ st input := by
  intro f₁
  induction f₁ with
  | zero =>
    intro f₂ st input h1 _
    have hlt : input.length < 4 := by omega
    rw [serveLoop_unfold, serveLoop_unfold, if_pos hlt, if_pos hlt]
  | succ f ih =>
    intro f₂ st input h1 h2
    by_cases hlt : input.length < 4
    · rw [serveLoop_unfold, serveLoop_unfold, if_pos hlt, if_pos hlt]
    · have h4 : 4 ≤ input.length := Nat.not_lt.mp hlt
      obtain ⟨g, rfl⟩ : ∃ g, f₂ = g + 1 := ⟨f₂ - 1, by omega⟩
      rw [serveLoop_unfold (f + 1), serveLoop_unfold (g + 1), if_neg hlt, if_neg hlt]
      simp only
      set len := beBytesToNat (input.take 4) with hlenDef
      set rest := input.drop 4 with hrest
      by_cases hshort : rest.length < len
      · rw [if_pos hshort, if_pos hshort]
      · rw [if_neg hshort, if_neg hshort]
        have hrl : rest.length = input.length - 4 := by simp [hrest]
        have hdl : (rest.drop len).length ≤ input.length - 4 := by
          simp [hrl]
        rw [ih g (st.handleMessage (rest.take len)).1 (rest.drop len)
          (by omega) (by omega)]

/-- EOF at the 4-byte length read (fewer than 4 bytes left on the stream):
the loop breaks with `Ok(())`. -/
theorem serveConnection_short (st : ServerM γ ε) (input : Bytes)
    (h : input.length < 4) : st.serveConnection input = (.clean, []) := by
  rw [ServerM.serveConnection, serveLoop_unfold, if_pos h]

/-- EOF between the length bytes and the end of the payload: the loop
breaks with the propagated IO error. -/
theorem serveConnection_truncated (st : ServerM γ ε) (b rest : Bytes)
    (hb : b.length = 4) (hshort : rest.length < beBytesToNat b) :
    st.serveConnection (b ++ rest) = (.ioError, []) := by
  have hlen : (b ++ rest).length = 4 + rest.length := by simp [hb]
  have hnlt : ¬ (b ++ rest).length < 4 := by omega
  rw [ServerM.serveConnection, serveLoop_unfold]
  obtain ⟨f, hf⟩ : ∃ f, (b ++ rest).length = f + 1 := ⟨(b ++ rest).length - 1, by omega⟩
  rw [hf, if_neg (hf ▸ hnlt)]
  have htake : (b ++ rest).take 4 = b := by
    rw [← hb]; exact List.take_left b rest
  have hdrop : (b ++ rest).drop 4 = rest := by
    rw [← hb]; exact List.drop_left b rest
  simp only [htake, hdrop, if_pos hshort]

/-- A complete frame: the loop reads exactly the 4 length bytes and exactly
`len` payload bytes, handles the message, emits the length-prefixed
response frame, and continues on the remaining stream with the
post-message server state. -/
theorem serveConnection_frame (st : ServerM γ ε) (b payload rest : Bytes)
    (hb : b.length = 4) (hp : payload.length = beBytesToNat b) :
    st.serveConnection (b ++ payload ++ rest) =
      (((st.handleMessage payload).1.serveConnection rest).1,
        (natToBeBytes4
            ((st.handleMessage payload).1.encodeResponse (st.handleMessage payload).2).length ++
          (st.handleMessage payload).1.encodeResponse (st.handleMessage payload).2) ::
        ((st.handleMessage payload).1.serveConnection rest).2) := by
  have hassoc : b ++ payload ++ rest = b ++ (payload ++ rest) := List.append_assoc b payload rest
  have hlen : (b ++ payload ++ rest).length = 4 + (payload.length + rest.length) := by
    simp [hb]
  have hnlt : ¬ (b ++ payload ++ rest).length < 4 := by omega
  rw [ServerM.serveConnection, serveLoop_unfold]
  obtain ⟨f, hf⟩ : ∃ f, (b ++ payload ++ rest).length = f + 1 :=
    ⟨(b ++ payload ++ rest).length - 1, by omega⟩
  rw [hf, if_neg (hf ▸ hnlt)]
  have htake : (b ++ payload ++ rest).take 4 = b := by
    rw [hassoc, ← hb]; exact List.take_left b (payload ++ rest)
  have hdrop : (b ++ payload ++ rest).drop 4 = payload ++ rest := by
    rw [hassoc, ← hb]; exact List.drop_left b (payload ++ rest)
  simp only [htake, hdrop, ← hp]
  have hnshort : ¬ (payload ++ rest).length < payload.length := by
    simp
  rw [if_neg hnshort]
  have htake2 : (payload ++ rest).take payload.length = payload := List.take_left payload rest
  have hdrop2 : (payload ++ rest).drop payload.length = rest := List.drop_left payload rest
  simp only [htake2, hdrop2]
  have hcongr : serveLoop f (st.handleMessage payload).1 rest =
      (st.handleMessage payload).1.serveConnection rest := by
    rw [ServerM.serveConnection]
    exact serveLoop_congr f rest.length (st.handleMessage payload).1 rest (by omega) (by omega)
  rw [← hcongr]

/-! ## Concrete fixtures for witnesses -/

/-- A passthrough encryption backend (the `Passthrough` test backend of
`lib.rs` lines 356-393): both directions are the identity. -/
def passthroughBackend : Backend Unit :=
  { encrypt := fun src => .ok src, decrypt := fun src => .ok src }

/-- A concrete server over unit credentials whose request decoder rejects
everything (the serde layer is irrelevant to the framing facts it
witnesses). -/
def testServer : ServerM Unit Unit :=
  { tryNew := fun _ => .ok passthroughBackend
    decodeRequest := fun _ => none
    encodeResponse := fun _ => [0]
    signer := none
    rng := 0 }

/-- The `testServer` after a successful `Initialize`. -/
def testServerInit : ServerM Unit Unit :=
  { testServer with signer := some (EncryptedSigner.new passthroughBackend) }

/-- The ASCII bytes of `"text"`, the message of the repository's own signer
tests. -/
def textBytes : Bytes := [0x74, 0x65, 0x78, 0x74]

/-! ## The claims -/

/-- **C4.** `serve_connection` reads exactly 4 length bytes then exactly
`len` payload bytes per request; EOF at the 4-byte length read returns
`Ok` (clean close); EOF after the length bytes but before the full payload
returns an IO error; in both EOF cases the loop ends with no output, and a
complete frame is consumed exactly before the loop continues on the rest of
the stream. -/
theorem serve_connection_framing (st : ServerM γ ε) (input b payload rest : Bytes) :
    (input.length < 4 → st.serveConnection input = (.clean, [])) ∧
    (b.length = 4 → rest.length < beBytesToNat b →
      st.serveConnection (b ++ rest) = (.ioError, [])) ∧
    (b.length = 4 → payload.length = beBytesToNat b →
      st.serveConnection (b ++ payload ++ rest) =
        (((st.handleMessage payload).1.serveConnection rest).1,
          (natToBeBytes4
              ((st.handleMessage payload).1.encodeResponse (st.handleMessage payload).2).length ++
            (st.handleMessage payload).1.encodeResponse (st.handleMessage payload).2) ::
          ((st.handleMessage payload).1.serveConnection rest).2)) :=
  ⟨fun h => serveConnection_short st input h,
   fun hb hshort => serveConnection_truncated st b rest hb hshort,
   fun hb hp => serveConnection_frame st b payload rest hb hp⟩

/-- Witness for C4 at concrete streams: a 2-byte stream closes cleanly, a
frame announcing 2 payload bytes but carrying 1 errors out, and a complete
1-byte frame yields one response frame and a clean close. -/
theorem serve_connection_framing_witness :
    testServer.serveConnection [7, 7] = (.clean, []) ∧
    testServer.serveConnection [0, 0, 0, 2, 9] = (.ioError, []) ∧
    testServer.serveConnection [0, 0, 0, 1, 9] = (.clean, [[0, 0, 0, 1, 0]]) := by
  refine ⟨(serve_connection_framing testServer [7, 7] [] [] []).1 (by decide), ?_, ?_⟩
  · have h := (serve_connection_framing testServer [] [0, 0, 0, 2] [] [9]).2.1
      (by decide) (by decide)
    simpa using h
  · have h := (serve_connection_framing testServer [] [0, 0, 0, 1] [9] []).2.2
      (by decide) (by decide)
    have hlit : ([0, 0, 0, 1] ++ [9] ++ [] : Bytes) = [0, 0, 0, 1, 9] := rfl
    rw [hlit] at h
    rw [h]
    rfl

/-- Round trip of the 4-byte big-endian length encoding below `2^32`. -/
theorem beBytesToNat_natToBeBytes4 (n : Nat) (h : n < 2 ^ 32) :
    beBytesToNat (natToBeBytes4 n) = n := by
  simp only [beBytesToNat, natToBeBytes4, List.foldl]
  omega

/-- **C5.** A payload that fails to decode as a CBOR `Request` is answered
with the deserialization error, `handle_message` reports success, and the
connection loop carries on with the very same session state to the next
frame. -/
theorem malformed_frame_keeps_connection (st : ServerM γ ε) (payload : Bytes)
    (hdec : st.decodeRequest payload = none) (hlen : payload.length < 2 ^ 32) :
    st.handleMessage payload = (st, .err .deserialize) ∧
    ∀ rest : Bytes,
      st.serveConnection (natToBeBytes4 payload.length ++ payload ++ rest) =
        ((st.serveConnection rest).1,
          (natToBeBytes4 (st.encodeResponse (.err .deserialize)).length ++
            st.encodeResponse (.err .deserialize)) :: (st.serveConnection rest).2) := by
  have hm : st.handleMessage payload = (st, .err .deserialize) := by
    simp [ServerM.handleMessage, hdec]
  refine ⟨hm, fun rest => ?_⟩
  have hb : (natToBeBytes4 payload.length).length = 4 := by simp [natToBeBytes4]
  have hp : payload.length = beBytesToNat (natToBeBytes4 payload.length) :=
    (beBytesToNat_natToBeBytes4 payload.length hlen).symm
  have h := serveConnection_frame st (natToBeBytes4 payload.length) payload rest hb hp
  rw [h, hm]

/-- Witness for C5: the spec's "garbage frame" scenario — payload
`0xFFFFFF` under the length prefix `len=3` draws the deserialization error
response and leaves the server processing the (empty) remainder of the
stream with unchanged state. -/
theorem malformed_frame_keeps_connection_witness :
    testServer.handleMessage [255, 255, 255] = (testServer, .err .deserialize) ∧
    testServer.serveConnection [0, 0, 0, 3, 255, 255, 255] = (.clean, [[0, 0, 0, 1, 0]]) := by
  have h := malformed_frame_keeps_connection testServer [255, 255, 255] rfl (by decide)
  refine ⟨h.1, ?_⟩
  have h2 := h.2 []
  have hlit : (natToBeBytes4 (List.length [255, 255, 255]) ++ [255, 255, 255] ++ [] : Bytes) =
      [0, 0, 0, 3, 255, 255, 255] := rfl
  rw [hlit] at h2
  rw [h2]
  rfl

/-- **C3.** The per-connection state machine: in `Uninitialized` (no
signer), every non-`Initialize` request is answered `Uninitialized` with the
state returned untouched; in `Initialized`, `Initialize` is answered
`AlreadyInitialized` with the state (backend and keychain included)
untouched; the only transition out of `Uninitialized` is an `Initialize`
whose credentials the factory accepts, and no request ever transitions an
initialized server back. -/
theorem server_state_machine (st : ServerM γ ε) (req : Request γ) :
    (st.signer = none → req.isInit = false →
      st.handleRequest req = (st, .err .uninitialized)) ∧
    (st.signer ≠ none → ∀ c, st.handleRequest (.Initialize c) =
      (st, .err .alreadyInitialized)) ∧
    (st.signer = none → ∀ c enc, st.tryNew c = .ok enc →
      st.handleRequest (.Initialize c) =
        ({ st with signer := some (EncryptedSigner.new enc) }, .ok .unit)) ∧
    (st.signer = none → ∀ c e, st.tryNew c = .error e →
      st.handleRequest (.Initialize c) = (st, .err (.encryption e))) ∧
    (st.signer = none → (st.handleRequest req).1.signer ≠ none →
      req.isInit = true) ∧
    (st.signer ≠ none → (st.handleRequest req).1.signer ≠ none) := by
  refine ⟨fun h1 h2 => ?_, fun h1 c => ?_, fun h1 c enc henc => ?_,
    fun h1 c e herr => ?_, fun h1 h2 => ?_, fun h1 => ?_⟩
  · cases req <;> simp_all [ServerM.handleRequest, Request.isInit]
  · obtain ⟨sg, hsg⟩ := Option.ne_none_iff_exists'.mp h1
    simp [ServerM.handleRequest, hsg]
  · simp [ServerM.handleRequest, h1, henc]
  · simp [ServerM.handleRequest, h1, herr]
  · cases req <;> simp_all [ServerM.handleRequest, Request.isInit]
  · obtain ⟨sg, hsg⟩ := Option.ne_none_iff_exists'.mp h1
    cases req <;> simp [ServerM.handleRequest, hsg]

/-- Witness for C3 at a concrete server: a `Sign` before `Initialize` is
refused without a state change, a second `Initialize` is refused without a
state change, the accepted `Initialize` transitions, and a request on the
initialized server leaves it initialized. -/
theorem server_state_machine_witness :
    testServer.handleRequest (.sign 0 []) = (testServer, .err .uninitialized) ∧
    testServerInit.handleRequest (.Initialize ()) = (testServerInit, .err .alreadyInitialized) ∧
    testServer.handleRequest (.Initialize ()) = (testServerInit, .ok .unit) ∧
    (testServerInit.handleRequest (.sign 0 [])).1.signer ≠ none := by
  refine ⟨(server_state_machine testServer (.sign 0 [])).1 rfl rfl, ?_, ?_, ?_⟩
  · exact (server_state_machine testServerInit (.Initialize ())).2.1
      (by simp [testServerInit, testServer]) ()
  · exact (server_state_machine testServer (.Initialize ())).2.2.1 rfl () passthroughBackend rfl
  · exact (server_state_machine testServerInit (.sign 0 [])).2.2.2.2.2
      (by simp [testServerInit, testServer])

/-- The `PrivateKey` variant holding an ECDSA key of the given curve. -/
def ecdsaPrivateKey : Curve → Nat → PrivateKey
  | .secp256k1, s => .secp256k1 s
  | .nistP256, s => .nistP256 s

/-- The `Signature` variant wrapping an ECDSA signature of the given curve. -/
def ecdsaWrapSig : Curve → ECDSASig → Signature
  | .secp256k1, sg => .secp256k1 sg
  | .nistP256, sg => .nistP256 sg

/-- **C1.** For both ECDSA curves, the `KeyPair::try_sign` wired through the
keychain signs the Blake2b-256 digest of the raw message: the produced
signature verifies under Blake2b-256 digest verification against the key's
public key, and under no other digest — in particular not under the curve's
default-hash digest of the message (which, being a SHA-256 output, differs
from the Blake2b-256 digest). -/
theorem ecdsa_keychain_signs_blake2b_digest (c : Curve) (kc : Keychain)
    (h s : Nat) (m : Bytes) (hkey : kc.keys.get? h = some (ecdsaPrivateKey c s)) :
    kc.trySign h m = .ok (ecdsaWrapSig c (ecdsaSignDigest ⟨c, s⟩ (blake2b256 m))) ∧
    ecdsaVerifyDigest (ECDSAKey.verifyingKey ⟨c, s⟩) (blake2b256 m)
      (ecdsaSignDigest ⟨c, s⟩ (blake2b256 m)) = true ∧
    (∀ d : Bytes, d ≠ blake2b256 m →
      ecdsaVerifyDigest (ECDSAKey.verifyingKey ⟨c, s⟩) d
        (ecdsaSignDigest ⟨c, s⟩ (blake2b256 m)) = false) := by
  have hkey' : kc.keys[h]? = some (ecdsaPrivateKey c s) := by simpa using hkey
  refine ⟨?_, ?_, fun d hd => ?_⟩
  · cases c <;>
      simp [Keychain.trySign, hkey', PrivateKey.trySign, cryptoEcdsaTrySign,
        ecdsaPrivateKey, ecdsaWrapSig]
  · simp [ecdsaVerifyDigest, ecdsaSignDigest, ECDSAKey.verifyingKey]
  · simp [ecdsaVerifyDigest, ecdsaSignDigest, ECDSAKey.verifyingKey]
    exact Ne.symm hd

set_option maxRecDepth 10000 in
/-- Witness for C1 at concrete keychains holding one key of each ECDSA
curve and the repository's own test message `"text"`: the keychain
signature is the Blake2b-256 digest signature, it verifies under the
Blake2b-256 digest, and it does not verify with the raw message in digest
position (the real Blake2b-256 digest of `"text"` is computed by the
kernel and differs from `"text"`). -/
theorem ecdsa_keychain_signs_blake2b_digest_witness :
    (Keychain.mk [PrivateKey.secp256k1 5]).trySign 0 textBytes =
      .ok (.secp256k1 (ecdsaSignDigest ⟨Curve.secp256k1, 5⟩ (blake2b256 textBytes))) ∧
    ecdsaVerifyDigest (ECDSAKey.verifyingKey ⟨Curve.secp256k1, 5⟩) (blake2b256 textBytes)
      (ecdsaSignDigest ⟨Curve.secp256k1, 5⟩ (blake2b256 textBytes)) = true ∧
    ecdsaVerifyDigest (ECDSAKey.verifyingKey ⟨Curve.secp256k1, 5⟩) textBytes
      (ecdsaSignDigest ⟨Curve.secp256k1, 5⟩ (blake2b256 textBytes)) = false ∧
    (Keychain.mk [PrivateKey.nistP256 6]).trySign 0 textBytes =
      .ok (.nistP256 (ecdsaSignDigest ⟨Curve.nistP256, 6⟩ (blake2b256 textBytes))) := by
  have h1 := ecdsa_keychain_signs_blake2b_digest Curve.secp256k1
    ⟨[PrivateKey.secp256k1 5]⟩ 0 5 textBytes rfl
  have h2 := ecdsa_keychain_signs_blake2b_digest Curve.nistP256
    ⟨[PrivateKey.nistP256 6]⟩ 0 6 textBytes rfl
  exact ⟨h1.1, h1.2.1, h1.2.2 textBytes (by decide), h2.1⟩

set_option maxRecDepth 10000 in
/-- **C2, counterexample.** The claim says the Ed25519 keychain path signs
the raw message directly, so the signature should verify against the raw
message itself. At the concrete key `1` and the repository's own test
message `"text"`, the signature produced through the keychain is the pure
Ed25519 signature of the Blake2b-256 digest bytes — exactly what the
in-crate test `signer_ed25519` (`src/signer_core/src/lib.rs` lines 437-455)
checks — and pure Ed25519 verification of the raw message fails on it. -/
theorem ed25519_keychain_raw_message_verify_fails :
    (Keychain.mk [PrivateKey.ed25519 1]).trySign 0 textBytes =
      .ok (.ed25519 (edSign ⟨1⟩ (blake2b256 textBytes))) ∧
    edVerify (EdKey.verifyingKey ⟨1⟩) textBytes
      (edSign ⟨1⟩ (blake2b256 textBytes)) = false := by
  exact ⟨rfl, by decide⟩

/-- **C2, amended.** Signing through the keychain path signs the
Blake2b-256 digest of the message with pure Ed25519 (no further
pre-hashing inside the primitive): the returned signature verifies against
the key's public key under standard Ed25519 verification of
`blake2b256 m` — the digest bytes in message position — and of no other
message, in particular not of the raw `m` whenever `m` differs from its
own digest. -/
theorem ed25519_keychain_signs_blake2b_digest (kc : Keychain) (h s : Nat)
    (m : Bytes) (hkey : kc.keys.get? h = some (.ed25519 s)) :
    kc.trySign h m = .ok (.ed25519 (edSign ⟨s⟩ (blake2b256 m))) ∧
    edVerify (EdKey.verifyingKey ⟨s⟩) (blake2b256 m)
      (edSign ⟨s⟩ (blake2b256 m)) = true ∧
    (∀ m' : Bytes, m' ≠ blake2b256 m →
      edVerify (EdKey.verifyingKey ⟨s⟩) m' (edSign ⟨s⟩ (blake2b256 m)) = false) := by
  have hkey' : kc.keys[h]? = some (PrivateKey.ed25519 s) := by simpa using hkey
  refine ⟨?_, ?_, fun m' hm => ?_⟩
  · simp [Keychain.trySign, hkey', PrivateKey.trySign]
  · simp [edVerify, edSign, EdKey.verifyingKey]
  · simp [edVerify, edSign, EdKey.verifyingKey]
    exact Ne.symm hm

set_option maxRecDepth 10000 in
/-- Witness for the amended C2 at the concrete key `1` and message
`"text"`: the keychain signature is the digest signature, it verifies
against the digest bytes, and not against the raw message. -/
theorem ed25519_keychain_signs_blake2b_digest_witness :
    (Keychain.mk [PrivateKey.ed25519 1]).trySign 0 textBytes =
      .ok (.ed25519 (edSign ⟨1⟩ (blake2b256 textBytes))) ∧
    edVerify (EdKey.verifyingKey ⟨1⟩) (blake2b256 textBytes)
      (edSign ⟨1⟩ (blake2b256 textBytes)) = true ∧
    edVerify (EdKey.verifyingKey ⟨1⟩) textBytes
      (edSign ⟨1⟩ (blake2b256 textBytes)) = false := by
  have h1 := ed25519_keychain_signs_blake2b_digest ⟨[PrivateKey.ed25519 1]⟩ 0 1 textBytes rfl
  exact ⟨h1.1, h1.2.1, h1.2.2 textBytes (by decide)⟩

/-- Sequential imports into a keychain, collecting the returned handles. -/
def importAll : Keychain → List PrivateKey → Keychain × List Nat
  | kc, [] => (kc, [])
  | kc, k :: ks =>
    let (kc1, h) := kc.importKey k
    let (kcf, hs) := importAll kc1 ks
    (kcf, h :: hs)

/-- Imports append in order and hand out the consecutive indices starting
at the current size. -/
theorem importAll_spec (ks : List PrivateKey) :
    ∀ kc : Keychain, (importAll kc ks).2 = List.range' kc.keys.length ks.length ∧
      (importAll kc ks).1.keys = kc.keys ++ ks := by
  induction ks with
  | nil => intro kc; simp [importAll]
  | cons k ks ih =>
    intro kc
    have h1 := ih ⟨kc.keys ++ [k]⟩
    simp only [importAll, Keychain.importKey]
    constructor
    · simp [h1.1, List.range'_succ]
    · simp [h1.2]

/-- **C6.** `Keychain::import` always succeeds and returns the number of
keys held before the call; after `n` imports into a fresh keychain the
returned handles are exactly `0, 1, ..., n-1` in order; sizes only grow and
every handle equals the size at its issue time, so no handle is ever
reissued; `try_sign` and `public_key` on any handle `≥ n` return
`InvalidHandle` (both take `&self` in Rust, so they cannot change the
keychain). -/
theorem keychain_handles_dense_monotonic (ks : List PrivateKey) (kc : Keychain)
    (k : PrivateKey) (h : Nat) (m : Bytes) :
    (importAll Keychain.new ks).2 = List.range ks.length ∧
    (kc.importKey k).2 = kc.keys.length ∧
    (kc.importKey k).1.keys = kc.keys ++ [k] ∧
    (kc.keys.length ≤ h →
      kc.trySign h m = .error .invalidHandle ∧
      kc.publicKey h = .error .invalidHandle) := by
  refine ⟨?_, rfl, rfl, fun hh => ?_⟩
  · have := (importAll_spec ks Keychain.new).1
    simpa [Keychain.new, List.range_eq_range'] using this
  · have hnone : kc.keys[h]? = none := by
      rw [List.getElem?_eq_none hh]
    constructor <;> simp [Keychain.trySign, Keychain.publicKey, hnone]

/-- Witness for C6: three imports into a fresh keychain hand out handles
`[0, 1, 2]`, and the spec's "invalid handle" scenario — handle 42 on a
one-key keychain — yields `InvalidHandle` from both `try_sign` and
`public_key`. -/
theorem keychain_handles_dense_monotonic_witness :
    (importAll Keychain.new
      [PrivateKey.ed25519 1, PrivateKey.bls 2, PrivateKey.secp256k1 3]).2 = [0, 1, 2] ∧
    (Keychain.mk [PrivateKey.ed25519 1]).trySign 42 [] = .error .invalidHandle ∧
    (Keychain.mk [PrivateKey.ed25519 1]).publicKey 42 = .error .invalidHandle := by
  have h1 := keychain_handles_dense_monotonic
    [PrivateKey.ed25519 1, PrivateKey.bls 2, PrivateKey.secp256k1 3]
    ⟨[PrivateKey.ed25519 1]⟩ (PrivateKey.ed25519 1) 42 []
  refine ⟨by simpa using h1.1, (h1.2.2.2 (by decide)).1, (h1.2.2.2 (by decide)).2⟩

/-- The `natToBytesLE` encoding always has the requested width. -/
theorem natToBytesLE_length (n x : Nat) : (natToBytesLE n x).length = n := by
  simp [natToBytesLE]

/-- **C7, counterexample.** The claim says the `BLSSignature` wire form is
the 48-byte compressed form, with deserialization accepting exactly 48
bytes. In the min-pk scheme the signature is a G2 point: at the concrete
signature below, `Serialize` emits the 96-byte `compress()` output (not 48
bytes), and a 48-byte string — the only length that passes the
deserializer's `[u8; 48]` fill — is then rejected by the G2 `uncompress`,
which requires 96 bytes, so deserialization accepts nothing. -/
theorem bls_wire_form_not_48_bytes :
    (blsSignatureSerialize ⟨1, [2], [3], [4]⟩).length = 96 ∧
    (blsSignatureSerialize ⟨1, [2], [3], [4]⟩).length ≠ 48 ∧
    blsSignatureDeserialize (List.replicate 48 0) = none := by
  refine ⟨natToBytesLE_length 96 _, ?_, rfl⟩
  rw [blsSignatureSerialize, blsSigCompress, natToBytesLE_length]
  decide

/-- **C7, amended.** BLS signing uses the min-pk augmented scheme: every
signature produced by the `KeyPair` impl for `min_pk::SecretKey` — also
when invoked through the keychain — carries the domain-separation tag
`BLS_SIG_BLS12381G2_XMD:SHA-256_SSWU_RO_AUG_` and augmentation bytes equal
to the signer's own 48-byte compressed public key, over the raw message.
The `BLSSignature` value serializes on the wire as the 96-byte G2
compressed form; the `Deserialize` impl reads the byte string into a
48-byte buffer (rejecting every other length) and then calls the G2
`uncompress` on those 48 bytes, which fails for every input, so
deserialization never succeeds. -/
theorem bls_augmented_scheme_and_wire_form (s : Nat) (m : Bytes) (kc : Keychain)
    (h : Nat) (sig : BLSSig) (b : Bytes) :
    (minPkTrySign ⟨s⟩ m).dst = blsDST ∧
    (minPkTrySign ⟨s⟩ m).aug = blsPkCompress (BLSKey.skToPk ⟨s⟩) ∧
    (minPkTrySign ⟨s⟩ m).msg = m ∧
    (kc.keys.get? h = some (.bls s) →
      kc.trySign h m = .ok (.bls (blsSign ⟨s⟩ m blsDST (blsPkCompress (BLSKey.skToPk ⟨s⟩))))) ∧
    blsSignatureSerialize sig = blsSigCompress sig ∧
    (blsSignatureSerialize sig).length = 96 ∧
    (blsPkCompress (BLSKey.skToPk ⟨s⟩)).length = 48 ∧
    (b.length ≠ 48 → blsSignatureDeserialize b = none) ∧
    blsSignatureDeserialize b = none := by
  refine ⟨rfl, rfl, rfl, fun hkey => ?_, rfl, natToBytesLE_length 96 _,
    natToBytesLE_length 48 _, fun hb => ?_, ?_⟩
  · have hkey' : kc.keys[h]? = some (PrivateKey.bls s) := by simpa using hkey
    simp [Keychain.trySign, hkey', PrivateKey.trySign, minPkTrySign]
  · simp [blsSignatureDeserialize, hb]
  · by_cases hb48 : b.length = 48
    · simp [blsSignatureDeserialize, blsSigUncompress, hb48]
    · simp [blsSignatureDeserialize, hb48]

/-- Witness for the amended C7: a one-key keychain at handle 0, the
96-byte serialization of a concrete signature, a 47-byte string (rejected
at the buffer fill) and a 48-byte string (rejected by the G2 uncompress). -/
theorem bls_augmented_scheme_and_wire_form_witness :
    (Keychain.mk [PrivateKey.bls 7]).trySign 0 [5] =
      .ok (.bls (blsSign ⟨7⟩ [5] blsDST (blsPkCompress (BLSKey.skToPk ⟨7⟩)))) ∧
    blsSignatureDeserialize (List.replicate 47 0) = none ∧
    blsSignatureDeserialize (List.replicate 48 0) = none ∧
    (blsSignatureSerialize ⟨1, [2], [3], [4]⟩).length = 96 := by
  have h1 := bls_augmented_scheme_and_wire_form 7 [5] ⟨[PrivateKey.bls 7]⟩ 0
    ⟨1, [2], [3], [4]⟩ (List.replicate 47 0)
  have h2 := bls_augmented_scheme_and_wire_form 7 [5] ⟨[PrivateKey.bls 7]⟩ 0
    ⟨1, [2], [3], [4]⟩ (List.replicate 48 0)
  exact ⟨h1.2.2.2.1 rfl, h1.2.2.2.2.2.2.2.1 (by decide), h2.2.2.2.2.2.2.2.2,
    h1.2.2.2.2.2.1⟩

/-- **C8.** `Generate` does not import: on an initialized server (sync and
async dispatch are identical and both embedded by `handleRequest`), a
`Generate(t)` request leaves the signer — in particular its keychain:
length, keys, and the invalidity of every out-of-range handle — exactly as
it was, for every key type `t`; only the response carries the new key, as
the `(ciphertext, PublicKey)` pair of the freshly generated key. -/
theorem generate_does_not_import (st : ServerM γ ε) (t : KeyType)
    (sg : EncryptedSigner ε) (hsig : st.signer = some sg) :
    (st.handleRequest (.generate t)).1.signer = some sg ∧
    (∀ h m, sg.keychain.keys.length ≤ h →
      ∀ sg', (st.handleRequest (.generate t)).1.signer = some sg' →
        sg'.keychain.trySign h m = .error .invalidHandle) ∧
    (∀ ct, sg.enc.encrypt (privateKeyToCbor (PrivateKey.generate t st.rng).1) = .ok ct →
      (st.handleRequest (.generate t)).2 =
        .ok (.ctPub ct (PrivateKey.generate t st.rng).1.publicKey)) := by
  have hunch : (st.handleRequest (.generate t)).1.signer = some sg := by
    simp [ServerM.handleRequest, hsig]
  refine ⟨hunch, fun h m hh sg' hsg' => ?_, fun ct hct => ?_⟩
  · have : sg' = sg := by
      rw [hunch] at hsg'
      exact (Option.some.injEq .. ▸ hsg').symm
    subst this
    have hnone : sg'.keychain.keys[h]? = none := by
      rw [List.getElem?_eq_none hh]
    simp [Keychain.trySign, hnone]
  · simp [ServerM.handleRequest, hsig, EncryptedSigner.generate,
      EncryptedSigner.encrypt, hct, Response.ofResult, Except.map]

/-- Witness for C8: on the concrete initialized server (passthrough
backend, empty keychain, RNG state 0), `Generate(Ed25519)` leaves the
signer untouched, handle 0 is still invalid afterwards, and the response
is the `(ciphertext, PublicKey)` pair of the fresh key. -/
theorem generate_does_not_import_witness :
    (testServerInit.handleRequest (.generate .ed25519)).1.signer =
      some (EncryptedSigner.new passthroughBackend) ∧
    ((EncryptedSigner.new passthroughBackend) : EncryptedSigner Unit).keychain.trySign 0 [] =
      .error .invalidHandle ∧
    (testServerInit.handleRequest (.generate .ed25519)).2 =
      .ok (.ctPub (privateKeyToCbor (PrivateKey.ed25519 0)) ((PrivateKey.ed25519 0).publicKey)) := by
  have h := generate_does_not_import testServerInit KeyType.ed25519
    (EncryptedSigner.new passthroughBackend) rfl
  exact ⟨h.1, h.2.1 0 [] (by decide) (EncryptedSigner.new passthroughBackend) h.1,
    h.2.2 (privateKeyToCbor (PrivateKey.ed25519 0)) rfl⟩

/-- **C9.** `Client::round_trip` writes the CBOR request encoding with no
4-byte big-endian length prefix, and decodes the result from the first `sz`
bytes of the request buffer `buf` (where `sz` is the number of response
bytes received, capped by the 64 KiB receive buffer): the outcome is a
function of the request alone given the response length — two responses of
equal length produce identical outcomes — so the returned value is never
derived from the bytes actually received from the server. -/
theorem client_round_trip_ignores_received_bytes (c : ClientM γ ρ)
    (q : Request γ) (response : Bytes) :
    (c.roundTrip q response).1 = c.encodeRequest q ∧
    (∀ n : Nat, (c.roundTrip q response).1 ≠ natToBeBytes4 n ++ c.encodeRequest q) ∧
    (∀ r, min response.length (64 * 1024) ≤ (c.encodeRequest q).length →
      c.decodeResult ((c.encodeRequest q).take (min response.length (64 * 1024))) = some r →
      (c.roundTrip q response).2 = .ok r) ∧
    (∀ response2 : Bytes, response2.length = response.length →
      (c.roundTrip q response2).2 = (c.roundTrip q response).2) := by
  refine ⟨rfl, fun n hEq => ?_, fun r hsz hdec => ?_, fun response2 hlen => ?_⟩
  · have hl := congrArg List.length hEq
    simp [ClientM.roundTrip, natToBeBytes4] at hl
    omega
  · simp only [ClientM.roundTrip]
    rw [if_pos hsz, hdec]
  · simp only [ClientM.roundTrip, hlen]

/-- A concrete client over unit credentials: a 3-byte request encoding and
an echoing result decoder. -/
def testClient : ClientM Unit Bytes :=
  { encodeRequest := fun _ => [1, 2, 3], decodeResult := fun b => some b }

/-- Witness for C9: with a 2-byte response, the client writes `[1, 2, 3]`
unframed and "decodes" `[1, 2]` — the first 2 bytes of its own request
buffer — and any other 2-byte response yields the same outcome. -/
theorem client_round_trip_ignores_received_bytes_witness :
    (testClient.roundTrip (.publicKey 0) [9, 9]).1 = [1, 2, 3] ∧
    (testClient.roundTrip (.publicKey 0) [9, 9]).2 = .ok [1, 2] ∧
    (testClient.roundTrip (.publicKey 0) [8, 8]).2 =
      (testClient.roundTrip (.publicKey 0) [9, 9]).2 := by
  have h := client_round_trip_ignores_received_bytes testClient (.publicKey 0) [9, 9]
  exact ⟨h.1, h.2.2.1 [1, 2] (by decide) rfl, h.2.2.2 [8, 8] rfl⟩

/-- If every successful driver response is non-empty, each iteration makes
at least one byte of progress, so a fuel budget of the destination length
makes the fill loop finish. -/
theorem tryFillBytes_total (driver : Nat → Except NsmError Bytes)
    (hne : ∀ j v, driver j = .ok v → v ≠ []) :
    ∀ fuel i destLen acc, destLen ≤ fuel →
      (tryFillBytes driver fuel i destLen acc).isSome := by
  intro fuel
  induction fuel with
  | zero =>
    intro i destLen acc h
    obtain rfl : destLen = 0 := Nat.le_zero.mp h
    simp [tryFillBytes]
  | succ f ih =>
    intro i destLen acc h
    match destLen with
    | 0 => simp [tryFillBytes]
    | dl + 1 =>
      cases hv : driver i with
      | error e => simp [tryFillBytes, hv]
      | ok v =>
        have hvne : v ≠ [] := hne i v hv
        have hvlen : 1 ≤ v.length := List.length_pos.mpr hvne
        simp only [tryFillBytes, hv]
        exact ih (i + 1) (dl + 1 - min v.length (dl + 1)) (acc ++ v.take (min v.length (dl + 1)))
          (by omega)

/-- With only non-empty successful responses, the loop fills the whole
destination by concatenating chunk prefixes. -/
theorem tryFillBytes_fills (driver : Nat → Except NsmError Bytes)
    (hok : ∀ j, ∃ v, driver j = .ok v ∧ v ≠ []) :
    ∀ fuel i destLen acc, destLen ≤ fuel →
      ∃ bytes, tryFillBytes driver fuel i destLen acc = some (.ok bytes) ∧
        bytes.length = acc.length + destLen := by
  intro fuel
  induction fuel with
  | zero =>
    intro i destLen acc h
    obtain rfl : destLen = 0 := Nat.le_zero.mp h
    exact ⟨acc, by simp [tryFillBytes]⟩
  | succ f ih =>
    intro i destLen acc h
    match destLen with
    | 0 => exact ⟨acc, by simp [tryFillBytes]⟩
    | dl + 1 =>
      obtain ⟨v, hv, hvne⟩ := hok i
      have hvlen : 1 ≤ v.length := List.length_pos.mpr hvne
      obtain ⟨bytes, hrec, hblen⟩ := ih (i + 1) (dl + 1 - min v.length (dl + 1))
        (acc ++ v.take (min v.length (dl + 1))) (by omega)
      refine ⟨bytes, by simp only [tryFillBytes, hv]; exact hrec, ?_⟩
      rw [hblen]
      simp [List.length_take]
      omega

/-- A driver that keeps answering `Ok(vec![])` starves the fill loop: no
fuel budget ever completes it. -/
theorem tryFillBytes_starves (driver : Nat → Except NsmError Bytes)
    (hempty : ∀ j, driver j = .ok []) :
    ∀ fuel i destLen acc, destLen ≠ 0 →
      tryFillBytes driver fuel i destLen acc = none := by
  intro fuel
  induction fuel with
  | zero =>
    intro i destLen acc h
    match destLen, h with
    | dl + 1, _ => simp [tryFillBytes]
  | succ f ih =>
    intro i destLen acc h
    match destLen, h with
    | dl + 1, _ =>
      simp only [tryFillBytes, hempty i]
      simpa using ih (i + 1) (dl + 1) acc (by omega)

/-- The driver of the C10 counterexample: one empty chunk, then 1-byte
chunks forever. -/
def emptyThenFull : Nat → Except NsmError Bytes :=
  fun i => .ok (if i = 0 then [] else [7])

/-- **C10, counterexample.** The claim states that one `Ok(vec![])`
response while the destination is non-empty makes `try_fill_bytes` never
terminate. Against the concrete driver that answers an empty chunk on its
first call and a 1-byte chunk afterwards, the loop — started on a 2-byte
destination, so the empty chunk does arrive while the destination is
non-empty — terminates after three iterations with the destination fully
filled. -/
theorem try_fill_bytes_recovers_after_empty_chunk :
    emptyThenFull 0 = .ok [] ∧
    tryFillBytes emptyThenFull 3 0 2 [] = some (.ok [7, 7]) := ⟨rfl, rfl⟩

/-- **C10, amended.** `SharedNSM::try_fill_bytes` terminates, filling the
whole destination by concatenating driver chunks, whenever every successful
`NSM::get_random_vec` response is non-empty (a fuel budget of the
destination length suffices); an `Ok(vec![])` response makes that iteration
no progress — the destination is exactly as unfilled as before, only the
call index advances — and a driver that answers `Ok(vec![])` on every call
starves the loop forever (no fuel completes it), unlike `seed_rng`, which
rejects the first empty chunk with `Error::NSM(ErrorCode::InternalError)`. -/
theorem try_fill_bytes_termination_profile (driver : Nat → Except NsmError Bytes)
    (i destLen : Nat) (acc : Bytes) :
    ((∀ j v, driver j = .ok v → v ≠ []) → ∀ fuel, destLen ≤ fuel →
      (tryFillBytes driver fuel i destLen acc).isSome) ∧
    ((∀ j, ∃ v, driver j = .ok v ∧ v ≠ []) → ∀ fuel, destLen ≤ fuel →
      ∃ bytes, tryFillBytes driver fuel i destLen acc = some (.ok bytes) ∧
        bytes.length = acc.length + destLen) ∧
    (driver i = .ok [] → destLen ≠ 0 → ∀ fuel,
      tryFillBytes driver (fuel + 1) i destLen acc =
        tryFillBytes driver fuel (i + 1) destLen acc) ∧
    ((∀ j, driver j = .ok []) → destLen ≠ 0 → ∀ fuel,
      tryFillBytes driver fuel i destLen acc = none) ∧
    (driver i = .ok [] → destLen ≠ 0 → ∀ fuel,
      seedRng driver (fuel + 1) i destLen = some (.error (.nsm .internalError))) := by
  refine ⟨fun hne fuel h => tryFillBytes_total driver hne fuel i destLen acc h,
    fun hok fuel h => tryFillBytes_fills driver hok fuel i destLen acc h,
    fun hv hd fuel => ?_, fun hempty hd fuel => tryFillBytes_starves driver hempty fuel i destLen acc hd,
    fun hv hd fuel => ?_⟩
  · match destLen, hd with
    | dl + 1, _ => simp [tryFillBytes, hv]
  · match destLen, hd with
    | dl + 1, _ => simp [seedRng, hv]

/-- Witness for the amended C10 at concrete drivers: a constant 1-byte
driver fills a 3-byte destination within fuel 3; the first empty response
of `emptyThenFull` advances only the call index; the constantly empty
driver never finishes within fuel 5; and `seed_rng` rejects the empty
first chunk with `InternalError`. -/
theorem try_fill_bytes_termination_profile_witness :
    tryFillBytes (fun _ => .ok [9]) 3 0 3 [] = some (.ok [9, 9, 9]) ∧
    tryFillBytes emptyThenFull 3 0 2 [] = tryFillBytes emptyThenFull 2 1 2 [] ∧
    tryFillBytes (fun _ => .ok []) 5 0 2 [] = none ∧
    seedRng emptyThenFull 4 0 2 = some (.error (.nsm .internalError)) := by
  have h1 := (try_fill_bytes_termination_profile (fun _ => .ok [9]) 0 3 []).2.1
    (fun j => ⟨[9], rfl, by decide⟩) 3 (by decide)
  obtain ⟨bytes, hb, hlen⟩ := h1
  have hbytes : bytes = [9, 9, 9] := by
    have : tryFillBytes (fun _ => .ok [9]) 3 0 3 [] = some (.ok [9, 9, 9]) := rfl
    rw [this] at hb
    exact (by simpa using hb.symm)
  refine ⟨hbytes ▸ hb, ?_, ?_, ?_⟩
  · exact (try_fill_bytes_termination_profile emptyThenFull 0 2 []).2.2.1 rfl (by decide) 2
  · exact (try_fill_bytes_termination_profile (fun _ => .ok []) 0 2 []).2.2.2.1
      (fun _ => rfl) (by decide) 5
  · exact (try_fill_bytes_termination_profile emptyThenFull 0 2 []).2.2.2.2 rfl (by decide) 3
